/-
Verification of the wsi-jxl-compression pipeline against its design spec.

The Python sources are shallowly embedded below:
  - src/utils/classes/Tile.py          -> structure Tile
  - src/utils/tiling/tile_indexer.py   -> build_tile_index (with scanX / scanY
    modelling the row-major double loop, pyRange modelling Python range(a,b,step))
  - src/utils/mask/tissue_mask.py      -> make_tissue_mask (bounding-box and
    coverage computation; the thresholded/morphology-cleaned boolean grid is a
    parameter, since the invariants claimed hold for every possible grid)
  - src/utils/encode/jxl_helper.py     -> search_distance_for_ssim (the bisection
    loop searchGo; the codec round trip encode/decode/SSIM at a given distance is
    abstracted as `probe : ℚ → List ℕ × ℚ` giving the encoded bytes and achieved
    SSIM, and wall-clock timings as iteration-indexed oracles encT, decT)
  - src/utils/encode/jxl_engine.py     -> jxl_encode_and_store / workerStep, over
    an explicit run-directory file-system model.

Python floats are modelled as ℚ, Python ints as ℤ/ℕ, numpy boolean arrays as
functions ℕ → ℕ → Bool with explicit dimensions, byte strings as List ℕ.
-/
import Mathlib

/-! ### Data model: Tile (src/utils/classes/Tile.py) -/

structure Tile where
  id : ℕ
  x : ℕ
  y : ℕ
  w : ℕ
  h : ℕ
  coverage : ℚ
deriving DecidableEq, Repr

/-! ### Mask data consumed by the tile indexer (src/utils/classes/Mask.py).
The boolean grid `mask.mask` of shape (Mh, Mw) is a function plus dimensions. -/

structure MaskData where
  grid : ℕ → ℕ → Bool
  Mh : ℕ
  Mw : ℕ
  downsample : ℚ
  bbox_level0 : ℤ × ℤ × ℤ × ℤ

/-! ### Computable arithmetic on ℚ.
Python floats are modelled as ℚ.  The standard `ℚ` operations `+ - * /` are
`@[irreducible]`, which blocks kernel evaluation of the embedded programs on
concrete inputs, so the embedding uses the equivalent computable forms below;
the bridge lemmas identify them with the standard operations for the proofs.
`qfloor` is Python `int(q)` for q ≥ 0 (and `np.floor`), `qceil` is `np.ceil`. -/

def qadd (a b : ℚ) : ℚ := mkRat (a.num * b.den + b.num * a.den) (a.den * b.den)

def qsub (a b : ℚ) : ℚ := mkRat (a.num * b.den - b.num * a.den) (a.den * b.den)

def qmul (a b : ℚ) : ℚ := mkRat (a.num * b.num) (a.den * b.den)

def qdiv (a b : ℚ) : ℚ := Rat.divInt (a.num * b.den) (a.den * b.num)

def qfloor (q : ℚ) : ℤ := q.num / q.den

def qceil (q : ℚ) : ℤ := -qfloor (-q)

theorem qadd_eq (a b : ℚ) : qadd a b = a + b := (Rat.add_def' a b).symm

theorem qsub_eq (a b : ℚ) : qsub a b = a - b := (Rat.sub_def' a b).symm

theorem qmul_eq (a b : ℚ) : qmul a b = a * b := by
  rw [qmul, ← Rat.normalize_eq_mkRat (Nat.mul_ne_zero a.den_nz b.den_nz),
    ← Rat.mul_def]

theorem qdiv_eq (a b : ℚ) : qdiv a b = a / b := by
  rcases eq_or_ne b 0 with rfl | hb
  · simp [qdiv]
  · have h1 : (a.den : ℚ) ≠ 0 := Nat.cast_ne_zero.mpr a.den_nz
    have h2 : (b.den : ℚ) ≠ 0 := Nat.cast_ne_zero.mpr b.den_nz
    have h3 : (b.num : ℚ) ≠ 0 := Int.cast_ne_zero.mpr (Rat.num_ne_zero.mpr hb)
    have ha : (a.num : ℚ) = a * a.den := (div_eq_iff h1).mp (Rat.num_div_den a)
    have hbn : (b.num : ℚ) = b * b.den := (div_eq_iff h2).mp (Rat.num_div_den b)
    rw [qdiv, Rat.divInt_eq_div]
    push_cast
    rw [div_eq_div_iff (mul_ne_zero h1 h3) hb, ha, hbn]
    ring

theorem qfloor_eq (q : ℚ) : qfloor q = ⌊q⌋ := Rat.floor_def.symm

theorem qceil_eq (q : ℚ) : qceil q = ⌈q⌉ := by
  rw [qceil, qfloor_eq, Int.floor_neg, neg_neg]

/-! ### Tile indexer (src/utils/tiling/tile_indexer.py) -/

structure IndexerConfig where
  TILE_SIZE : ℤ
  STRIDE : ℤ
  MIN_TISSUE_FRAC : ℚ

/-- Python `range(a, b, step)` for a nonnegative start/stop and positive step:
the list a, a+step, a+2*step, ... of all values below b. -/
def pyRange (a b step : ℕ) : List ℕ :=
  (List.range ((b - a + step - 1) / step)).map (fun i => a + step * i)

/-- Number of `true` cells of `g` in the window of `rows` rows starting at `my0`
and `cols` columns starting at `mx0` (models `M[my0:my1, mx0:mx1].sum()`). -/
def windowCount (g : ℕ → ℕ → Bool) (my0 mx0 rows cols : ℕ) : ℕ :=
  ((List.range rows).map (fun i =>
    ((List.range cols).filter (fun j => g (my0 + i) (mx0 + j))).length)).sum

/-- `float(M[my0:my1, mx0:mx1].mean())`: fraction of `true` cells in the window. -/
def windowMean (g : ℕ → ℕ → Bool) (my0 my1 mx0 mx1 : ℕ) : ℚ :=
  qdiv (windowCount g my0 mx0 (my1 - my0) (mx1 - mx0) : ℚ)
    (((my1 - my0) * (mx1 - mx0) : ℕ) : ℚ)

/-- Inner `for x in range(x0, x1, st)` loop of build_tile_index, lines 76-109:
clamp the width, break when it hits 0, map the level-0 rectangle into mask
coordinates, clamp, skip empty windows, and keep the tile when the window mean
reaches the tissue fraction.  Threads the mutable `tid` counter and returns the
kept tiles of this row together with the final counter. -/
def scanX (M : MaskData) (frac : ℚ) (W0 ts x1 y th : ℕ) :
    List ℕ → ℕ → List Tile × ℕ
  | [], tid => ([], tid)
  | x :: xs, tid =>
    let tw := min ts (min (x1 - x) (W0 - x))
    if tw = 0 then ([], tid)
    else
      let d := M.downsample
      let mx0 : ℤ := max 0 (qfloor (qdiv (x : ℚ) d))
      let my0 : ℤ := max 0 (qfloor (qdiv (y : ℚ) d))
      let mx1 : ℤ := min (M.Mw : ℤ) (qceil (qdiv ((x + tw : ℕ) : ℚ) d))
      let my1 : ℤ := min (M.Mh : ℤ) (qceil (qdiv ((y + th : ℕ) : ℚ) d))
      if mx1 ≤ mx0 ∨ my1 ≤ my0 then scanX M frac W0 ts x1 y th xs tid
      else
        let cov := windowMean M.grid my0.toNat my1.toNat mx0.toNat mx1.toNat
        if frac ≤ cov then
          let rest := scanX M frac W0 ts x1 y th xs (tid + 1)
          (⟨tid, x, y, tw, th, cov⟩ :: rest.1, rest.2)
        else scanX M frac W0 ts x1 y th xs tid

/-- Outer `for y in range(y0, y1, st)` loop of build_tile_index, lines 71-109:
clamp the height, break when it hits 0, and scan each row. -/
def scanY (M : MaskData) (frac : ℚ) (W0 H0 ts st x0 x1 y1 : ℕ) :
    List ℕ → ℕ → List Tile × ℕ
  | [], tid => ([], tid)
  | y :: ys, tid =>
    let th := min ts (min (y1 - y) (H0 - y))
    if th = 0 then ([], tid)
    else
      let row := scanX M frac W0 ts x1 y th (pyRange x0 x1 st) tid
      let rest := scanY M frac W0 H0 ts st x0 x1 y1 ys row.2
      (row.1 ++ rest.1, rest.2)

/-- build_tile_index (src/utils/tiling/tile_indexer.py, lines 21-123): validate
the configuration, clamp the mask's level-0 bounding box to the slide bounds
(W0, H0), return [] on an empty box, and otherwise scan the box row-major with
step STRIDE, keeping tiles whose mask-window coverage reaches MIN_TISSUE_FRAC.
The slide handle is reduced to its level-0 dimensions. -/
def build_tile_index (W0 H0 : ℕ) (mask : MaskData) (cfg : IndexerConfig) :
    Except String (List Tile) :=
  if cfg.TILE_SIZE ≤ 0 ∨ cfg.STRIDE ≤ 0 then
    Except.error "TILE_SIZE and STRIDE must be positive integers."
  else if ¬ (0 ≤ cfg.MIN_TISSUE_FRAC ∧ cfg.MIN_TISSUE_FRAC ≤ 1) then
    Except.error "MIN_TISSUE_FRAC must be within [0.0, 1.0]."
  else
    let x0 := (max 0 (min mask.bbox_level0.1 (W0 : ℤ))).toNat
    let y0 := (max 0 (min mask.bbox_level0.2.1 (H0 : ℤ))).toNat
    let x1 := (max 0 (min mask.bbox_level0.2.2.1 (W0 : ℤ))).toNat
    let y1 := (max 0 (min mask.bbox_level0.2.2.2 (H0 : ℤ))).toNat
    if x1 ≤ x0 ∨ y1 ≤ y0 then Except.ok []
    else
      Except.ok (scanY mask cfg.MIN_TISSUE_FRAC W0 H0 cfg.TILE_SIZE.toNat
        cfg.STRIDE.toNat x0 x1 y1 (pyRange y0 y1 cfg.STRIDE.toNat) 0).1

/-! ### Adaptive compression search (src/utils/encode/jxl_helper.py)

`search_distance_for_ssim` drives an external codec: at each trial distance it
encodes the fixed input tile, decodes the blob, and measures SSIM against the
original.  For a fixed input tile this round trip is a pure function of the
trial distance, abstracted as `probe : ℚ → List ℕ × ℚ` returning the encoded
bytes and the achieved SSIM.  The wall-clock timings of the encode and decode
calls of iteration `it` are the oracles `encT it`, `decT it`.  The shape check
on the input array keeps only the shape (Python `rgb.ndim != 3 or
rgb.shape[2] != 3`). -/

structure JxlConfig where
  DIST_MIN : ℚ
  DIST_MAX : ℚ
  MAX_ITERS : ℕ
  STOP_EPS : ℚ
  EFFORT : ℕ

/-- The running best candidate of the bisection: the accepted trial distance
with its encoded bytes and achieved SSIM (`distance, encoded_bytes, similarity`
in the Python). -/
structure SearchBest where
  dist : ℚ
  bytes : List ℕ
  sim : ℚ
deriving DecidableEq

/-- The tuple returned by search_distance_for_ssim:
`(distance, encoded_bytes, similarity, enc_ms, dec_ms)`. -/
structure SearchResult where
  distance : ℚ
  encodedBytes : List ℕ
  similarity : ℚ
  encMs : ℚ
  decMs : ℚ
deriving DecidableEq

/-- Lines 178-179 of jxl_helper.py: after the loop, return the tuple when a
best candidate exists; otherwise the function falls off its end and returns
no result (Python's implicit None). `em`/`dm` are the enc/dec timings of the
last executed iteration. -/
def finishSearch : Option SearchBest → ℚ → ℚ → Option SearchResult
  | none, _, _ => none
  | some b, em, dm => some ⟨b.dist, b.bytes, b.sim, em, dm⟩

/-- The bisection loop of search_distance_for_ssim (lines 146-176): `n` is the
remaining iteration budget (initially MAX_ITERS), `it` the current iteration
index (for the timing oracles), `lo, hi` the bracket, `best` the accepted
candidate so far, `em, dm` the timings of the last executed iteration.  Each
iteration probes `mid = 0.5 * (lo + hi)`; if the achieved SSIM meets the gate
the candidate is recorded and `lo = mid`, else `hi = mid`; the loop breaks
early when the bracket width drops below `eps`. -/
def searchGo (probe : ℚ → List ℕ × ℚ) (encT decT : ℕ → ℚ) (gate eps : ℚ) :
    ℕ → ℕ → ℚ → ℚ → Option SearchBest → ℚ → ℚ → Option SearchResult
  | 0, _, _, _, best, em, dm => finishSearch best em dm
  | n + 1, it, lo, hi, best, _em, _dm =>
    let mid := qmul (mkRat 1 2) (qadd lo hi)
    let p := probe mid
    let em' := encT it
    let dm' := decT it
    if gate ≤ p.2 then
      if qsub hi mid < eps then finishSearch (some ⟨mid, p.1, p.2⟩) em' dm'
      else searchGo probe encT decT gate eps n (it + 1) mid hi
        (some ⟨mid, p.1, p.2⟩) em' dm'
    else
      if qsub mid lo < eps then finishSearch best em' dm'
      else searchGo probe encT decT gate eps n (it + 1) lo mid best em' dm'

/-- The sequence of probes `(mid, achieved ssim)` the bisection performs, in
order, over the same control flow as `searchGo`. -/
def searchTrace (probe : ℚ → List ℕ × ℚ) (gate eps : ℚ) :
    ℕ → ℚ → ℚ → List (ℚ × ℚ)
  | 0, _, _ => []
  | n + 1, lo, hi =>
    let mid := qmul (mkRat 1 2) (qadd lo hi)
    let s := (probe mid).2
    (mid, s) ::
      (if gate ≤ s then
        (if qsub hi mid < eps then [] else searchTrace probe gate eps n mid hi)
      else
        (if qsub mid lo < eps then [] else searchTrace probe gate eps n lo mid))

/-- search_distance_for_ssim (src/utils/encode/jxl_helper.py, lines 120-179):
validate the input shape and the target/tolerance, then run the bisection over
[DIST_MIN, DIST_MAX].  A raised ValueError is `Except.error`; a normal return
is `Except.ok (some result)`; the gate never being met makes the Python
function fall off its end, `Except.ok none`. -/
def search_distance_for_ssim (shape : List ℕ) (probe : ℚ → List ℕ × ℚ)
    (encT decT : ℕ → ℚ) (target tol : ℚ) (cfg : JxlConfig) :
    Except String (Option SearchResult) :=
  if shape.length ≠ 3 ∨ shape.getD 2 0 ≠ 3 then
    Except.error "Expected RGB (H,W,3)"
  else if ¬ (0 < target ∧ target ≤ 1) ∨ tol < 0 then
    Except.error "Invalid SSIM target/tol"
  else
    Except.ok (searchGo probe encT decT (qsub target tol) cfg.STOP_EPS
      cfg.MAX_ITERS 0 cfg.DIST_MIN cfg.DIST_MAX none 0 0)

/-! ### Encoding pipeline (src/utils/encode/jxl_engine.py)

The pipeline writes into a run directory `OUT_DIR/<timestamp>`; the run
directory name (the `datetime.now().strftime(...)` component) is the `runId`
parameter.  The file system is a map from (run directory name, file name) to
file contents (bytes as List ℕ).  The per-tile work `read_tile_rgb` +
`search_distance_for_ssim` involves the external slide reader and codec; for a
given tile it is abstracted as `searchFn : Tile → Option SearchResult`, where
`none` stands for any exception escaping the worker (including the search
returning Python None, which makes the worker's tuple unpacking raise).  The
ThreadPoolExecutor dispatch is modelled as a sequential fold over the tile
list; each status is "skipped", "written", or "error" (the driver's exception
branch).  CSV serialization of the manifest rows is abstracted as the
deterministic byte encoding `manifestBytes`. -/

def raw_bytes (w h : ℕ) : ℕ := w * h * 3 * 1

/-- tile_fname (jxl_helper.py line 35): deterministic output filename from the
tile geometry. -/
def tile_fname (t : Tile) : String :=
  "x_" ++ toString t.x ++ "_y_" ++ toString t.y ++ "_w_" ++ toString t.w ++
    "_h_" ++ toString t.h ++ ".jxl"

/-- A file system: run directory name × file name → file contents. -/
def FS : Type := String × String → Option (List ℕ)

def fsSet (fs : FS) (p : String × String) (v : List ℕ) : FS :=
  fun q => if q = p then some v else fs q

def fsRemove (fs : FS) (p : String × String) : FS :=
  fun q => if q = p then none else fs q

/-- The bytes of the lifecycle marker content "encoding\n". -/
def encodingMarker : List ℕ := [101, 110, 99, 111, 100, 105, 110, 103, 10]

/-- Manifest row (jxl_engine.py lines 114-125). -/
structure EncRow where
  tile_id : ℕ
  x : ℕ
  y : ℕ
  w : ℕ
  h : ℕ
  distance_encoded : ℚ
  ssim : ℚ
  rawBytesField : ℕ
  enc_bytes : ℕ
  cr : ℚ
  enc_ms : ℚ
  dec_ms : ℚ
  relpath : String
deriving DecidableEq

/-- Deterministic byte encoding of the manifest rows (stands for the CSV text
the DictWriter produces; only injectivity-irrelevant determinism matters to the
claims). -/
def manifestBytes (rows : List EncRow) : List ℕ :=
  rows.map (fun r => r.tile_id + r.x + r.y + r.w + r.h + r.enc_bytes)

/-- The per-tile worker (jxl_engine.py lines 71-128) acting on the file system:
returns the updated file system, the status string, and the manifest row if
one was appended.  If the destination exists the tile is skipped before any
slide or codec access; otherwise the search runs, the compression ratio is
`rawb / max(1, enc_len)`, the blob is written (tmp + fsync + atomic rename,
collapsed to one atomic update of the final path), and a row is recorded.
`none` from `searchFn` is any exception, caught by the driver as an error. -/
def workerStep (runId : String) (searchFn : Tile → Option SearchResult)
    (fs : FS) (t : Tile) : FS × String × Option EncRow :=
  let dst : String × String := (runId, tile_fname t)
  if (fs dst).isSome then (fs, "skipped", none)
  else
    match searchFn t with
    | none => (fs, "error", none)
    | some r =>
      let rawb := raw_bytes t.w t.h
      let encLen := r.encodedBytes.length
      let cr := qdiv (rawb : ℚ) ((max 1 encLen : ℕ) : ℚ)
      let fs' := fsSet fs dst r.encodedBytes
      (fs', "written",
        some ⟨t.id, t.x, t.y, t.w, t.h, r.distance, r.similarity, rawb, encLen,
          cr, r.encMs, r.decMs, tile_fname t⟩)

/-- Fold of the worker over the tile list, collecting statuses and rows in
dispatch order. -/
def runWorkers (runId : String) (searchFn : Tile → Option SearchResult) :
    FS → List Tile → FS × List String × List EncRow
  | fs, [] => (fs, [], [])
  | fs, t :: ts =>
    let step := workerStep runId searchFn fs t
    let rest := runWorkers runId searchFn step.1 ts
    (rest.1, step.2.1 :: rest.2.1,
      (match step.2.2 with
       | none => rest.2.2
       | some row => row :: rest.2.2))

/-- The summary and final state of one pipeline invocation. -/
structure EngineResult where
  fs : FS
  statuses : List String
  rows : List EncRow
  written : ℕ
  skipped : ℕ
  errors : ℕ

/-- Lines 147-153 of jxl_engine.py: write manifest.csv exactly once, only when
at least one row was produced. -/
def writeManifest (runId : String) (rows : List EncRow) (fs : FS) : FS :=
  if rows = [] then fs
  else fsSet fs (runId, "manifest.csv") (manifestBytes rows)

/-- Lines 156-158 of jxl_engine.py: if .INPROGRESS exists, rename it to .DONE
(remove the old path, bind the new path to the old content). -/
def finalizeMarker (runId : String) (fs : FS) : FS :=
  match fs (runId, ".INPROGRESS") with
  | none => fs
  | some c => fsSet (fsRemove fs (runId, ".INPROGRESS")) (runId, ".DONE") c

/-- jxl_encode_and_store (src/utils/encode/jxl_engine.py, lines 28-166) for one
run directory `runId` (the timestamp component of the path): write the
.INPROGRESS marker, run the workers over all tiles, write manifest.csv once if
any rows were produced, and rename .INPROGRESS to .DONE if it exists.  The
driver counts a "written" status as written, an exception as an error, and any
other status as skipped. -/
def jxl_encode_and_store (runId : String)
    (searchFn : Tile → Option SearchResult) (tiles : List Tile) (fs0 : FS) :
    EngineResult :=
  let fs1 := fsSet fs0 (runId, ".INPROGRESS") encodingMarker
  let run := runWorkers runId searchFn fs1 tiles
  let sts := run.2.1
  let rows := run.2.2
  let fs4 := finalizeMarker runId (writeManifest runId rows run.1)
  { fs := fs4
    statuses := sts
    rows := rows
    written := (sts.filter (fun s => s = "written")).length
    skipped := (sts.filter (fun s => s ≠ "written" ∧ s ≠ "error")).length
    errors := (sts.filter (fun s => s = "error")).length }

/-! ### Tissue mask builder (src/utils/mask/tissue_mask.py)

Level selection, thumbnail reading, HSV thresholding (skimage) and morphology
produce a boolean grid `m` of shape (h, w); the claims about make_tissue_mask
are invariants that hold for every possible such grid, so the grid after
morphology enters as the parameter `grid` (with dimensions h, w).  The slide's
level-0 dimensions are (W0, H0), `down` is the level downsample reported by the
reader, `dilate` is cfg.DILATE_PX_LEVEL0.  Only the fields the claims consult
(downsample, bbox_level0, coverage) are retained. -/

structure MaskResult where
  downsample : ℚ
  bbox_level0 : ℤ × ℤ × ℤ × ℤ
  coverage : ℚ

/-- `np.where(m)` as a set: the coordinates (row, col) of the true cells of the
h×w grid. -/
def tissueCells (grid : ℕ → ℕ → Bool) (h w : ℕ) : Finset (ℕ × ℕ) :=
  (Finset.range h ×ˢ Finset.range w).filter (fun p => grid p.1 p.2 = true)

/-- make_tissue_mask (src/utils/mask/tissue_mask.py, lines 82-123, from
`ys, xs = np.where(m)` on): if no tissue cell survives, return the empty bbox
and zero coverage; otherwise pad the min/max rows and columns by
`max(1, ceil(DILATE_PX_LEVEL0 / down))`, clamp to the thumbnail, map to
level-0 coordinates (floor for the lower corner, ceil for the exclusive upper
corner), clamp to `[0,W0]×[0,H0]`, and report `m.mean()` as coverage. -/
def make_tissue_mask (W0 H0 w h : ℕ) (grid : ℕ → ℕ → Bool) (down dilate : ℚ) :
    MaskResult :=
  let cells := tissueCells grid h w
  if hne : cells.Nonempty then
    let x0m : ℤ := (cells.image Prod.snd).min' (hne.image _)
    let x1m : ℤ := (cells.image Prod.snd).max' (hne.image _)
    let y0m : ℤ := (cells.image Prod.fst).min' (hne.image _)
    let y1m : ℤ := (cells.image Prod.fst).max' (hne.image _)
    let exp : ℤ := max 1 (qceil (qdiv dilate down))
    let px0 := max 0 (x0m - exp)
    let py0 := max 0 (y0m - exp)
    let px1 := min ((w : ℤ) - 1) (x1m + exp)
    let py1 := min ((h : ℤ) - 1) (y1m + exp)
    let x0 := max 0 (qfloor (qmul (px0 : ℚ) down))
    let y0 := max 0 (qfloor (qmul (py0 : ℚ) down))
    let x1 := min (W0 : ℤ) (qceil (qmul ((px1 + 1 : ℤ) : ℚ) down))
    let y1 := min (H0 : ℤ) (qceil (qmul ((py1 + 1 : ℤ) : ℚ) down))
    ⟨down, (x0, y0, x1, y1), qdiv (cells.card : ℚ) ((h * w : ℕ) : ℚ)⟩
  else
    ⟨down, (0, 0, 0, 0), 0⟩

/-! ### Lemmas about the tile-indexer scan -/

theorem scanX_snd_eq (M : MaskData) (frac : ℚ) (W0 ts x1 y th : ℕ)
    (xs : List ℕ) (tid : ℕ) :
    (scanX M frac W0 ts x1 y th xs tid).2 =
      tid + (scanX M frac W0 ts x1 y th xs tid).1.length := by
  induction xs generalizing tid with
  | nil => simp [scanX]
  | cons x xs ih =>
    simp only [scanX]
    split
    · simp
    · split
      · exact ih tid
      · split
        · simp only [List.length_cons]
          rw [ih (tid + 1)]
          omega
        · exact ih tid

theorem scanX_map_id (M : MaskData) (frac : ℚ) (W0 ts x1 y th : ℕ)
    (xs : List ℕ) (tid : ℕ) :
    (scanX M frac W0 ts x1 y th xs tid).1.map Tile.id =
      List.range' tid (scanX M frac W0 ts x1 y th xs tid).1.length := by
  induction xs generalizing tid with
  | nil => simp [scanX]
  | cons x xs ih =>
    simp only [scanX]
    split
    · simp
    · split
      · exact ih tid
      · split
        · simp only [List.map_cons, List.length_cons, List.range'_succ]
          exact congrArg _ (ih (tid + 1))
        · exact ih tid

theorem scanX_mem (M : MaskData) (frac : ℚ) (W0 ts x1 y th : ℕ)
    (xs : List ℕ) (tid : ℕ) (t : Tile)
    (ht : t ∈ (scanX M frac W0 ts x1 y th xs tid).1) :
    t.y = y ∧ t.h = th ∧ 0 < t.w ∧ frac ≤ t.coverage ∧ t.x ∈ xs := by
  induction xs generalizing tid with
  | nil => simp [scanX] at ht
  | cons x xs ih =>
    simp only [scanX] at ht
    split at ht
    · simp at ht
    · rename_i htw
      split at ht
      · have h := ih tid ht
        exact ⟨h.1, h.2.1, h.2.2.1, h.2.2.2.1, List.mem_cons_of_mem _ h.2.2.2.2⟩
      · split at ht
        · rename_i hcov
          rcases List.mem_cons.mp ht with rfl | hmem
          · exact ⟨rfl, rfl, Nat.pos_of_ne_zero htw, hcov, List.mem_cons_self _ _⟩
          · have h := ih (tid + 1) hmem
            exact ⟨h.1, h.2.1, h.2.2.1, h.2.2.2.1,
              List.mem_cons_of_mem _ h.2.2.2.2⟩
        · have h := ih tid ht
          exact ⟨h.1, h.2.1, h.2.2.1, h.2.2.2.1, List.mem_cons_of_mem _ h.2.2.2.2⟩

theorem scanX_pairwise_x (M : MaskData) (frac : ℚ) (W0 ts x1 y th : ℕ)
    (xs : List ℕ) (tid : ℕ) (hxs : xs.Pairwise (· < ·)) :
    (scanX M frac W0 ts x1 y th xs tid).1.Pairwise (fun a b => a.x < b.x) := by
  induction xs generalizing tid with
  | nil => simp [scanX]
  | cons x xs ih =>
    have hx := List.pairwise_cons.mp hxs
    simp only [scanX]
    split
    · simp
    · split
      · exact ih tid hx.2
      · split
        · refine List.pairwise_cons.mpr ⟨?_, ih (tid + 1) hx.2⟩
          intro b hb
          have hmem := scanX_mem M frac W0 ts x1 y th xs (tid + 1) b hb
          exact hx.1 b.x hmem.2.2.2.2
        · exact ih tid hx.2

theorem pyRange_pairwise (a b step : ℕ) (hst : 0 < step) :
    (pyRange a b step).Pairwise (· < ·) := by
  rw [pyRange, List.pairwise_map]
  exact (List.pairwise_lt_range _).imp
    (fun h => Nat.add_lt_add_left (mul_lt_mul_of_pos_left h hst) a)

theorem scanY_map_id (M : MaskData) (frac : ℚ) (W0 H0 ts st x0 x1 y1 : ℕ)
    (ys : List ℕ) (tid : ℕ) :
    (scanY M frac W0 H0 ts st x0 x1 y1 ys tid).1.map Tile.id =
      List.range' tid (scanY M frac W0 H0 ts st x0 x1 y1 ys tid).1.length := by
  induction ys generalizing tid with
  | nil => simp [scanY]
  | cons y ys ih =>
    simp only [scanY]
    split
    · simp
    · simp only [List.map_append, List.length_append]
      rw [scanX_map_id, ih, scanX_snd_eq]
      exact (List.range'_append_1 tid _ _).trans (by rw [Nat.add_comm])

theorem scanY_mem (M : MaskData) (frac : ℚ) (W0 H0 ts st x0 x1 y1 : ℕ)
    (ys : List ℕ) (tid : ℕ) (t : Tile)
    (ht : t ∈ (scanY M frac W0 H0 ts st x0 x1 y1 ys tid).1) :
    0 < t.w ∧ 0 < t.h ∧ frac ≤ t.coverage ∧ t.y ∈ ys := by
  induction ys generalizing tid with
  | nil => simp [scanY] at ht
  | cons y ys ih =>
    simp only [scanY] at ht
    split at ht
    · simp at ht
    · rename_i hth
      rcases List.mem_append.mp ht with hrow | hrest
      · have h := scanX_mem M frac W0 ts x1 y _ _ tid t hrow
        refine ⟨h.2.2.1, ?_, h.2.2.2.1, ?_⟩
        · rw [h.2.1]; exact Nat.pos_of_ne_zero hth
        · rw [h.1]; exact List.mem_cons_self _ _
      · have h := ih _ hrest
        exact ⟨h.1, h.2.1, h.2.2.1, List.mem_cons_of_mem _ h.2.2.2⟩

theorem scanY_pairwise (M : MaskData) (frac : ℚ) (W0 H0 ts st x0 x1 y1 : ℕ)
    (ys : List ℕ) (tid : ℕ) (hst : 0 < st) (hys : ys.Pairwise (· < ·)) :
    (scanY M frac W0 H0 ts st x0 x1 y1 ys tid).1.Pairwise
      (fun a b => a.y < b.y ∨ (a.y = b.y ∧ a.x < b.x)) := by
  induction ys generalizing tid with
  | nil => simp [scanY]
  | cons y ys ih =>
    have hy := List.pairwise_cons.mp hys
    simp only [scanY]
    split
    · simp
    · refine List.pairwise_append.mpr ⟨?_, ih _ hy.2, ?_⟩
      · refine List.Pairwise.imp_of_mem ?_
          (scanX_pairwise_x M frac W0 ts x1 y _ _ tid
            (pyRange_pairwise x0 x1 st hst))
        intro a b ha hb hab
        have hay := (scanX_mem M frac W0 ts x1 y _ _ tid a ha).1
        have hby := (scanX_mem M frac W0 ts x1 y _ _ tid b hb).1
        exact Or.inr ⟨hay.trans hby.symm, hab⟩
      · intro a ha b hb
        have hay := (scanX_mem M frac W0 ts x1 y _ _ tid a ha).1
        have hby := (scanY_mem M frac W0 H0 ts st x0 x1 y1 ys _ b hb).2.2.2
        exact Or.inl (by rw [hay]; exact hy.1 b.y hby)

/-! ### The concrete 1000×1000 scenario of the spec (testable property list):
tile size 256, stride 256, mask fully tissue over a 1000×1000 level-0 region
with bbox (0,0,1000,1000); the mask grid is 4×4 all-true at downsample 250. -/

def c9Mask : MaskData := ⟨fun _ _ => true, 4, 4, 250, (0, 0, 1000, 1000)⟩

def c9Cfg : IndexerConfig := ⟨256, 256, mkRat 1 2⟩

def c9Tiles : List Tile :=
  [⟨0, 0, 0, 256, 256, 1⟩, ⟨1, 256, 0, 256, 256, 1⟩, ⟨2, 512, 0, 256, 256, 1⟩,
   ⟨3, 768, 0, 232, 256, 1⟩, ⟨4, 0, 256, 256, 256, 1⟩,
   ⟨5, 256, 256, 256, 256, 1⟩, ⟨6, 512, 256, 256, 256, 1⟩,
   ⟨7, 768, 256, 232, 256, 1⟩, ⟨8, 0, 512, 256, 256, 1⟩,
   ⟨9, 256, 512, 256, 256, 1⟩, ⟨10, 512, 512, 256, 256, 1⟩,
   ⟨11, 768, 512, 232, 256, 1⟩, ⟨12, 0, 768, 256, 232, 1⟩,
   ⟨13, 256, 768, 256, 232, 1⟩, ⟨14, 512, 768, 256, 232, 1⟩,
   ⟨15, 768, 768, 232, 232, 1⟩]

theorem c9_run_eq :
    build_tile_index 1000 1000 c9Mask c9Cfg = Except.ok c9Tiles := by rfl

/-! ### C6 and C7 -/

/-- Claim C6: for every slide and mask, the tile ids produced by
build_tile_index are dense and strictly increasing in row-major scan order:
the returned sequence is strictly sorted by (y, x), and its ids in that order
are exactly 0, 1, 2, .... -/
theorem tile_ids_dense_row_major (W0 H0 : ℕ) (mask : MaskData)
    (cfg : IndexerConfig) (tiles : List Tile)
    (h : build_tile_index W0 H0 mask cfg = Except.ok tiles) :
    tiles.map Tile.id = List.range tiles.length ∧
      tiles.Pairwise (fun a b => a.y < b.y ∨ (a.y = b.y ∧ a.x < b.x)) := by
  simp only [build_tile_index] at h
  split at h
  · exact absurd h (by simp)
  · split at h
    · exact absurd h (by simp)
    · rename_i hval _
      split at h
      · cases h
        simp
      · cases h
        constructor
        · rw [List.range_eq_range']
          exact scanY_map_id mask cfg.MIN_TISSUE_FRAC W0 H0 _ _ _ _ _ _ 0
        · refine scanY_pairwise mask cfg.MIN_TISSUE_FRAC W0 H0 _ _ _ _ _ _ 0 ?_
            (pyRange_pairwise _ _ _ ?_) <;>
          · simp only [not_or, not_le] at hval
            omega

/-- Claim C6 witness: the theorem applied to the concrete 1000×1000 scenario
(mask fully tissue at downsample 250, tile size = stride = 256). -/
theorem tile_ids_dense_row_major_witness :
    (c9Tiles.map Tile.id = List.range c9Tiles.length ∧
      c9Tiles.Pairwise (fun a b => a.y < b.y ∨ (a.y = b.y ∧ a.x < b.x))) :=
  tile_ids_dense_row_major 1000 1000 c9Mask c9Cfg c9Tiles c9_run_eq

/-- Claim C7: every Tile constructed by build_tile_index has positive width and
height and coverage at least MIN_TISSUE_FRAC; grid positions below the
threshold produce no tile. -/
theorem tile_invariant_w_h_coverage (W0 H0 : ℕ) (mask : MaskData)
    (cfg : IndexerConfig) (tiles : List Tile)
    (h : build_tile_index W0 H0 mask cfg = Except.ok tiles) :
    ∀ t ∈ tiles, 0 < t.w ∧ 0 < t.h ∧ cfg.MIN_TISSUE_FRAC ≤ t.coverage := by
  intro t ht
  simp only [build_tile_index] at h
  split at h
  · exact absurd h (by simp)
  · split at h
    · exact absurd h (by simp)
    · split at h
      · cases h
        simp at ht
      · cases h
        have hm := scanY_mem mask cfg.MIN_TISSUE_FRAC W0 H0 _ _ _ _ _ _ 0 t ht
        exact ⟨hm.1, hm.2.1, hm.2.2.1⟩

/-- Claim C7 witness: the theorem applied to the concrete 1000×1000 scenario,
at its first tile. -/
theorem tile_invariant_w_h_coverage_witness :
    0 < (Tile.mk 0 0 0 256 256 1).w ∧ 0 < (Tile.mk 0 0 0 256 256 1).h ∧
      c9Cfg.MIN_TISSUE_FRAC ≤ (Tile.mk 0 0 0 256 256 1).coverage :=
  tile_invariant_w_h_coverage 1000 1000 c9Mask c9Cfg c9Tiles c9_run_eq
    (Tile.mk 0 0 0 256 256 1) (by decide)

/-! ### C10: compression ratio (jxl_engine.py lines 98-100) -/

/-- Claim C10: for every tile the worker processes, the compression-ratio
denominator is max(1, encodedByteLength), which is positive, so the ratio is
well defined; with a zero-length encoded blob the ratio equals rawBytes. -/
theorem worker_cr_no_div_zero (runId : String)
    (searchFn : Tile → Option SearchResult) (fs : FS) (t : Tile) (row : EncRow)
    (h : (workerStep runId searchFn fs t).2.2 = some row) :
    row.cr = qdiv ((raw_bytes t.w t.h : ℕ) : ℚ) ((max 1 row.enc_bytes : ℕ) : ℚ) ∧
      0 < max 1 row.enc_bytes ∧
      (row.enc_bytes = 0 → row.cr = ((raw_bytes t.w t.h : ℕ) : ℚ)) := by
  simp only [workerStep] at h
  split at h
  · exact absurd h (by simp)
  · split at h
    · exact absurd h (by simp)
    · rename_i r hr
      cases h
      refine ⟨rfl, by omega, fun h0 => ?_⟩
      simp only at h0 ⊢
      rw [h0, qdiv_eq]
      norm_num

def c10tile : Tile := ⟨0, 0, 0, 1, 1, 1⟩

def c10row : EncRow :=
  ⟨0, 0, 0, 1, 1, 1, 1, raw_bytes 1 1, 0,
    qdiv ((raw_bytes 1 1 : ℕ) : ℚ) ((max 1 0 : ℕ) : ℚ), 0, 0,
    "x_0_y_0_w_1_h_1.jxl"⟩

/-- Claim C10 witness: a 1×1 tile whose search result has an empty encoded
blob; the ratio is rawBytes / 1 = rawBytes. -/
theorem worker_cr_no_div_zero_witness :
    c10row.cr =
        qdiv ((raw_bytes c10tile.w c10tile.h : ℕ) : ℚ)
          ((max 1 c10row.enc_bytes : ℕ) : ℚ) ∧
      0 < max 1 c10row.enc_bytes ∧
      (c10row.enc_bytes = 0 →
        c10row.cr = ((raw_bytes c10tile.w c10tile.h : ℕ) : ℚ)) :=
  worker_cr_no_div_zero "r" (fun _ => some ⟨1, [], 1, 0, 0⟩) (fun _ => none)
    c10tile c10row rfl

/-! ### C9: the concrete 1000×1000 tiling scenario -/

/-- Claim C9 counterexample: in the concrete scenario the indexer produces 16
tiles in total, of which only 9 (not 16) are full 256×256 tiles; so the claim
"16 full 256×256 interior tiles plus edge tiles" is false on the code. -/
theorem scenario_1000_grid_counterexample :
    build_tile_index 1000 1000 c9Mask c9Cfg = Except.ok c9Tiles ∧
      c9Tiles.length = 16 ∧
      (c9Tiles.filter (fun t => t.w = 256 ∧ t.h = 256)).length = 9 :=
  ⟨c9_run_eq, by decide, by decide⟩

/-- Claim C9 (amended): the scenario yields 16 tiles: 9 full 256×256 interior
tiles and 7 edge tiles with a 232 px side (1000 − 3·256 = 232), and the
scanned cells cover the whole 1000×1000 box with no gaps. -/
theorem scenario_1000_grid_amended :
    build_tile_index 1000 1000 c9Mask c9Cfg = Except.ok c9Tiles ∧
      c9Tiles.length = 16 ∧
      (c9Tiles.filter (fun t => t.w = 256 ∧ t.h = 256)).length = 9 ∧
      (c9Tiles.filter (fun t => t.w = 232 ∨ t.h = 232)).length = 7 ∧
      (∀ px py : ℕ, px < 1000 → py < 1000 →
        ∃ t ∈ c9Tiles, t.x ≤ px ∧ px < t.x + t.w ∧ t.y ≤ py ∧ py < t.y + t.h) := by
  refine ⟨c9_run_eq, by decide, by decide, by decide, ?_⟩
  intro px py hx hy
  have hc : ∀ v : ℕ, v < 1000 →
      v < 256 ∨ (256 ≤ v ∧ v < 512) ∨ (512 ≤ v ∧ v < 768) ∨
        (768 ≤ v ∧ v < 1000) := by omega
  rcases hc px hx with h1 | h1 | h1 | h1 <;> rcases hc py hy with h2 | h2 | h2 | h2
  · refine ⟨⟨0, 0, 0, 256, 256, 1⟩, by decide, ?_, ?_, ?_, ?_⟩ <;> (dsimp only; omega)
  · refine ⟨⟨4, 0, 256, 256, 256, 1⟩, by decide, ?_, ?_, ?_, ?_⟩ <;> (dsimp only; omega)
  · refine ⟨⟨8, 0, 512, 256, 256, 1⟩, by decide, ?_, ?_, ?_, ?_⟩ <;> (dsimp only; omega)
  · refine ⟨⟨12, 0, 768, 256, 232, 1⟩, by decide, ?_, ?_, ?_, ?_⟩ <;> (dsimp only; omega)
  · refine ⟨⟨1, 256, 0, 256, 256, 1⟩, by decide, ?_, ?_, ?_, ?_⟩ <;> (dsimp only; omega)
  · refine ⟨⟨5, 256, 256, 256, 256, 1⟩, by decide, ?_, ?_, ?_, ?_⟩ <;> (dsimp only; omega)
  · refine ⟨⟨9, 256, 512, 256, 256, 1⟩, by decide, ?_, ?_, ?_, ?_⟩ <;> (dsimp only; omega)
  · refine ⟨⟨13, 256, 768, 256, 232, 1⟩, by decide, ?_, ?_, ?_, ?_⟩ <;> (dsimp only; omega)
  · refine ⟨⟨2, 512, 0, 256, 256, 1⟩, by decide, ?_, ?_, ?_, ?_⟩ <;> (dsimp only; omega)
  · refine ⟨⟨6, 512, 256, 256, 256, 1⟩, by decide, ?_, ?_, ?_, ?_⟩ <;> (dsimp only; omega)
  · refine ⟨⟨10, 512, 512, 256, 256, 1⟩, by decide, ?_, ?_, ?_, ?_⟩ <;> (dsimp only; omega)
  · refine ⟨⟨14, 512, 768, 256, 232, 1⟩, by decide, ?_, ?_, ?_, ?_⟩ <;> (dsimp only; omega)
  · refine ⟨⟨3, 768, 0, 232, 256, 1⟩, by decide, ?_, ?_, ?_, ?_⟩ <;> (dsimp only; omega)
  · refine ⟨⟨7, 768, 256, 232, 256, 1⟩, by decide, ?_, ?_, ?_, ?_⟩ <;> (dsimp only; omega)
  · refine ⟨⟨11, 768, 512, 232, 256, 1⟩, by decide, ?_, ?_, ?_, ?_⟩ <;> (dsimp only; omega)
  · refine ⟨⟨15, 768, 768, 232, 232, 1⟩, by decide, ?_, ?_, ?_, ?_⟩ <;> (dsimp only; omega)

/-- Claim C9 amended witness: the covering property instantiated at the point
(999, 770), which lies in the bottom-right 232×232 edge tile. -/
theorem scenario_1000_grid_amended_witness :
    ∃ t ∈ c9Tiles, t.x ≤ 999 ∧ 999 < t.x + t.w ∧ t.y ≤ 770 ∧ 770 < t.y + t.h :=
  scenario_1000_grid_amended.2.2.2.2 999 770 (by decide) (by decide)

/-! ### Lemmas about the bisection search -/

theorem mkRat_half : (mkRat 1 2 : ℚ) = 1 / 2 := by
  rw [Rat.mkRat_eq_divInt, Rat.divInt_eq_div]
  norm_num

theorem searchMid_eq (lo hi : ℚ) :
    qmul (mkRat 1 2) (qadd lo hi) = (lo + hi) / 2 := by
  rw [qmul_eq, qadd_eq, mkRat_half]
  ring

theorem searchMid_le (lo hi : ℚ) (h : lo ≤ hi) :
    lo ≤ qmul (mkRat 1 2) (qadd lo hi) ∧
      qmul (mkRat 1 2) (qadd lo hi) ≤ hi := by
  rw [searchMid_eq]
  constructor <;> linarith

/-- A run of the loop whose best candidate is already set always returns a
result, whose distance is at least the candidate's and at most `hi`. -/
theorem searchGo_some_of_best (probe : ℚ → List ℕ × ℚ) (encT decT : ℕ → ℚ)
    (gate eps : ℚ) :
    ∀ (n it : ℕ) (lo hi : ℚ) (b : SearchBest) (em dm : ℚ), lo ≤ hi →
      b.dist ≤ lo →
      ∃ r, searchGo probe encT decT gate eps n it lo hi (some b) em dm =
          some r ∧ b.dist ≤ r.distance ∧ r.distance ≤ hi := by
  intro n
  induction n with
  | zero =>
    intro it lo hi b em dm hlh hbl
    exact ⟨⟨b.dist, b.bytes, b.sim, em, dm⟩, rfl, le_refl _, hbl.trans hlh⟩
  | succ n ih =>
    intro it lo hi b em dm hlh hbl
    have hm := searchMid_le lo hi hlh
    simp only [searchGo]
    split
    · split
      · exact ⟨_, rfl, hbl.trans hm.1, hm.2⟩
      · obtain ⟨r, hr, h1, h2⟩ := ih (it + 1) _ hi ⟨_, _, _⟩ (encT it) (decT it)
          hm.2 (le_refl _)
        exact ⟨r, hr, hbl.trans (hm.1.trans h1), h2⟩
    · split
      · exact ⟨⟨b.dist, b.bytes, b.sim, _, _⟩, rfl, le_refl _, hbl.trans hlh⟩
      · obtain ⟨r, hr, h1, h2⟩ := ih (it + 1) lo _ b (encT it) (decT it)
          hm.1 hbl
        exact ⟨r, hr, h1, h2.trans hm.2⟩

/-- The distance of any returned result is the prior best candidate's or lies
in the bracket. -/
theorem searchGo_bounds (probe : ℚ → List ℕ × ℚ) (encT decT : ℕ → ℚ)
    (gate eps : ℚ) :
    ∀ (n it : ℕ) (lo hi : ℚ) (best : Option SearchBest) (em dm : ℚ)
      (r : SearchResult), lo ≤ hi →
      searchGo probe encT decT gate eps n it lo hi best em dm = some r →
      (∃ b, best = some b ∧ r.distance = b.dist) ∨
        (lo ≤ r.distance ∧ r.distance ≤ hi) := by
  intro n
  induction n with
  | zero =>
    intro it lo hi best em dm r _ h
    cases best with
    | none => exact absurd h (by simp [searchGo, finishSearch])
    | some b =>
      simp only [searchGo, finishSearch] at h
      cases h
      exact Or.inl ⟨b, rfl, rfl⟩
  | succ n ih =>
    intro it lo hi best em dm r hlh h
    have hm := searchMid_le lo hi hlh
    simp only [searchGo] at h
    split at h
    · split at h
      · simp only [finishSearch] at h
        cases h
        exact Or.inr ⟨hm.1, hm.2⟩
      · rcases ih (it + 1) _ hi (some ⟨_, _, _⟩) (encT it) (decT it) r hm.2 h with
          ⟨b, hb, hrb⟩ | ⟨h1, h2⟩
        · cases hb
          exact Or.inr ⟨hrb ▸ hm.1, hrb ▸ hm.2⟩
        · exact Or.inr ⟨hm.1.trans h1, h2⟩
    · split at h
      · cases best with
        | none => exact absurd h (by simp [finishSearch])
        | some b =>
          simp only [finishSearch] at h
          cases h
          exact Or.inl ⟨b, rfl, rfl⟩
      · rcases ih (it + 1) lo _ best (encT it) (decT it) r hm.1 h with hb | ⟨h1, h2⟩
        · exact Or.inl hb
        · exact Or.inr ⟨h1, h2.trans hm.2⟩

/-- Raising the SSIM gate never raises the returned distance: if the stricter
search (gate g2 ≥ g1) returns a result, the laxer one also does, at a distance
at least as large.  The timing oracles and iteration counters of the two runs
are unrelated. -/
theorem searchGo_mono_gate (probe : ℚ → List ℕ × ℚ)
    (encT1 decT1 encT2 decT2 : ℕ → ℚ) (g1 g2 eps : ℚ) (hg : g1 ≤ g2) :
    ∀ (n it1 it2 : ℕ) (lo hi : ℚ) (best : Option SearchBest)
      (em1 dm1 em2 dm2 : ℚ), lo ≤ hi →
      (best = none ∨ ∃ b, best = some b ∧ b.dist = lo) →
      ∀ r2, searchGo probe encT2 decT2 g2 eps n it2 lo hi best em2 dm2 =
          some r2 →
        ∃ r1, searchGo probe encT1 decT1 g1 eps n it1 lo hi best em1 dm1 =
            some r1 ∧ r2.distance ≤ r1.distance := by
  intro n
  induction n with
  | zero =>
    intro it1 it2 lo hi best em1 dm1 em2 dm2 _ hbest r2 h2
    cases best with
    | none => exact absurd h2 (by simp [searchGo, finishSearch])
    | some b =>
      simp only [searchGo, finishSearch] at h2 ⊢
      cases h2
      exact ⟨_, rfl, le_refl _⟩
  | succ n ih =>
    intro it1 it2 lo hi best em1 dm1 em2 dm2 hlh hbest r2 h2
    have hm := searchMid_le lo hi hlh
    by_cases hacc2 : g2 ≤ (probe (qmul (mkRat 1 2) (qadd lo hi))).2
    · have hacc1 : g1 ≤ (probe (qmul (mkRat 1 2) (qadd lo hi))).2 :=
        hg.trans hacc2
      simp only [searchGo, if_pos hacc1, if_pos hacc2] at h2 ⊢
      split at h2
      · rename_i hbrk
        rw [if_pos hbrk]
        simp only [finishSearch] at h2 ⊢
        cases h2
        exact ⟨_, rfl, le_refl _⟩
      · rename_i hbrk
        rw [if_neg hbrk]
        exact ih (it1 + 1) (it2 + 1) _ hi (some ⟨_, _, _⟩) (encT1 it1)
          (decT1 it1) (encT2 it2) (decT2 it2) hm.2 (Or.inr ⟨_, rfl, rfl⟩) r2 h2
    · by_cases hacc1 : g1 ≤ (probe (qmul (mkRat 1 2) (qadd lo hi))).2
      · -- divergence: the laxer gate accepts mid, the stricter one rejects it
        have hd2 : r2.distance ≤ qmul (mkRat 1 2) (qadd lo hi) := by
          simp only [searchGo, if_neg hacc2] at h2
          split at h2
          · cases best with
            | none => exact absurd h2 (by simp [finishSearch])
            | some b =>
              simp only [finishSearch] at h2
              cases h2
              rcases hbest with h | ⟨b', hb', hbl⟩
              · exact absurd h (by simp)
              · cases hb'
                exact le_of_eq_of_le hbl hm.1
          · rcases searchGo_bounds probe encT2 decT2 g2 eps n (it2 + 1) lo _
                best (encT2 it2) (decT2 it2) r2 hm.1 h2 with
              ⟨b, hb, hrb⟩ | ⟨_, hup⟩
            · rcases hbest with h | ⟨b', hb', hbl⟩
              · rw [h] at hb; exact absurd hb (by simp)
              · rw [hb'] at hb
                cases hb
                exact le_of_eq_of_le (hrb.trans hbl) hm.1
            · exact hup
        simp only [searchGo, if_pos hacc1]
        split
        · exact ⟨_, rfl, hd2⟩
        · obtain ⟨r1, hr1, hlo1, _⟩ := searchGo_some_of_best probe encT1 decT1
            g1 eps n (it1 + 1) _ hi ⟨_, _, _⟩ (encT1 it1) (decT1 it1) hm.2
            (le_refl _)
          exact ⟨r1, hr1, hd2.trans hlo1⟩
      · -- both gates reject mid
        simp only [searchGo, if_neg hacc1, if_neg hacc2] at h2 ⊢
        split at h2
        · rename_i hbrk
          rw [if_pos hbrk]
          cases best with
          | none => exact absurd h2 (by simp [finishSearch])
          | some b =>
            simp only [finishSearch] at h2 ⊢
            cases h2
            exact ⟨_, rfl, le_refl _⟩
        · rename_i hbrk
          rw [if_neg hbrk]
          exact ih (it1 + 1) (it2 + 1) lo _ best (encT1 it1) (decT1 it1)
            (encT2 it2) (decT2 it2) hm.1 hbest r2 h2

/-- The result of the bisection loop is the last accepted probe: its bytes and
similarity come from probing its distance, the probed sequence splits around it
with every later probe rejected and every earlier accepted probe at a smaller
or equal distance; if instead the prior best is returned unchanged, every probe
of the remaining trace was rejected. -/
theorem searchGo_last_accepted (probe : ℚ → List ℕ × ℚ) (encT decT : ℕ → ℚ)
    (gate eps : ℚ) :
    ∀ (n it : ℕ) (lo hi : ℚ) (best : Option SearchBest) (em dm : ℚ)
      (r : SearchResult), lo ≤ hi →
      (∀ b, best = some b → gate ≤ b.sim ∧ b.bytes = (probe b.dist).1 ∧
        b.sim = (probe b.dist).2 ∧ b.dist ≤ lo) →
      searchGo probe encT decT gate eps n it lo hi best em dm = some r →
      gate ≤ r.similarity ∧
        r.encodedBytes = (probe r.distance).1 ∧
        r.similarity = (probe r.distance).2 ∧
        r.distance ≤ hi ∧
        ((best = some ⟨r.distance, r.encodedBytes, r.similarity⟩ ∧
            ∀ q ∈ searchTrace probe gate eps n lo hi, ¬ gate ≤ q.2) ∨
          (lo ≤ r.distance ∧
            ∃ pre post, searchTrace probe gate eps n lo hi =
                pre ++ (r.distance, r.similarity) :: post ∧
              (∀ q ∈ pre, gate ≤ q.2 → q.1 ≤ r.distance) ∧
              (∀ q ∈ post, ¬ gate ≤ q.2))) := by
  intro n
  induction n with
  | zero =>
    intro it lo hi best em dm r hlh hbest h
    cases best with
    | none => exact absurd h (by simp [searchGo, finishSearch])
    | some b =>
      simp only [searchGo, finishSearch] at h
      cases h
      obtain ⟨h1, h2, h3, h4⟩ := hbest b rfl
      exact ⟨h1, h2, h3, h4.trans hlh, Or.inl ⟨rfl, by simp [searchTrace]⟩⟩
  | succ n ih =>
    intro it lo hi best em dm r hlh hbest h
    have hm := searchMid_le lo hi hlh
    simp only [searchGo] at h
    simp only [searchTrace]
    split at h
    · rename_i hacc
      split at h
      · rename_i hbrk
        simp only [finishSearch] at h
        cases h
        rw [if_pos hacc, if_pos hbrk]
        exact ⟨hacc, rfl, rfl, hm.2,
          Or.inr ⟨hm.1, [], [], rfl, by simp, by simp⟩⟩
      · rename_i hbrk
        have hr := ih (it + 1) _ hi (some ⟨_, _, _⟩) (encT it) (decT it) r hm.2
          (by
            intro b hb
            cases Option.some.inj hb
            exact ⟨hacc, rfl, rfl, le_refl _⟩) h
        rw [if_pos hacc, if_neg hbrk]
        refine ⟨hr.1, hr.2.1, hr.2.2.1, hr.2.2.2.1, Or.inr ?_⟩
        rcases hr.2.2.2.2 with ⟨hbe, hrej⟩ | ⟨hlo, pre, post, htr, hpre, hpost⟩
        · have h1 : qmul (mkRat 1 2) (qadd lo hi) = r.distance :=
            congrArg SearchBest.dist (Option.some.inj hbe)
          have h2 : (probe (qmul (mkRat 1 2) (qadd lo hi))).2 = r.similarity :=
            congrArg SearchBest.sim (Option.some.inj hbe)
          refine ⟨h1 ▸ hm.1, [], searchTrace probe gate eps n _ hi, ?_, by simp,
            hrej⟩
          rw [← h1, ← h2]
          rfl
        · refine ⟨hm.1.trans hlo, (_, _) :: pre, post, by rw [htr]; rfl, ?_, hpost⟩
          intro q hq hcq
          rcases List.mem_cons.mp hq with rfl | hq'
          · exact hlo
          · exact hpre q hq' hcq
    · rename_i hacc
      split at h
      · rename_i hbrk
        cases best with
        | none => exact absurd h (by simp [finishSearch])
        | some b =>
          simp only [finishSearch] at h
          cases h
          obtain ⟨h1, h2, h3, h4⟩ := hbest b rfl
          rw [if_neg hacc, if_pos hbrk]
          refine ⟨h1, h2, h3, h4.trans hlh, Or.inl ⟨rfl, ?_⟩⟩
          intro q hq
          rcases List.mem_cons.mp hq with rfl | hq'
          · exact hacc
          · simp at hq'
      · rename_i hbrk
        have hr := ih (it + 1) lo _ best (encT it) (decT it) r hm.1 hbest h
        rw [if_neg hacc, if_neg hbrk]
        refine ⟨hr.1, hr.2.1, hr.2.2.1, hr.2.2.2.1.trans hm.2, ?_⟩
        rcases hr.2.2.2.2 with ⟨hbe, hrej⟩ | ⟨hlo, pre, post, htr, hpre, hpost⟩
        · refine Or.inl ⟨hbe, ?_⟩
          intro q hq
          rcases List.mem_cons.mp hq with rfl | hq'
          · exact hacc
          · exact hrej q hq'
        · refine Or.inr ⟨hlo, (_, _) :: pre, post, by rw [htr]; rfl, ?_, hpost⟩
          intro q hq hcq
          rcases List.mem_cons.mp hq with rfl | hq'
          · exact absurd hcq hacc
          · exact hpre q hq' hcq

/-- If no probe ever meets the gate, the loop keeps `best = None` and returns
no result. -/
theorem searchGo_none (probe : ℚ → List ℕ × ℚ) (encT decT : ℕ → ℚ)
    (gate eps : ℚ) (hmiss : ∀ dq : ℚ, (probe dq).2 < gate) :
    ∀ (n it : ℕ) (lo hi em dm : ℚ),
      searchGo probe encT decT gate eps n it lo hi none em dm = none := by
  intro n
  induction n with
  | zero => intro it lo hi em dm; rfl
  | succ n ih =>
    intro it lo hi em dm
    simp only [searchGo]
    rw [if_neg (not_le.mpr (hmiss _))]
    split
    · rfl
    · exact ih (it + 1) lo _ _ _

/-! ### Concrete search-demo inputs shared by the search claims: a probe whose
decoded SSIM is 1 up to distance 2 and 0 beyond, distinguishable per-iteration
timings, bounds [0, 4], two iterations, no early-stop epsilon. -/

def sdemoProbe : ℚ → List ℕ × ℚ := fun d => ([1], if d ≤ 2 then 1 else 0)

def sdemoEncT : ℕ → ℚ := fun it => if it = 0 then 10 else 99

def sdemoDecT : ℕ → ℚ := fun it => if it = 0 then 20 else 77

def sdemoCfg : JxlConfig := ⟨0, 4, 2, 0, 7⟩

def sdemoTarget : ℚ := mkRat 9 10

def sdemoRes : SearchResult := ⟨2, [1], 1, 99, 77⟩

/-! ### C1, C2, C4 and C5 -/

/-- Claim C1: whenever search_distance_for_ssim returns a result, the returned
distance lies in [DIST_MIN, DIST_MAX], the achieved SSIM meets the gate
target − tolerance, the returned bytes and SSIM are exactly those of probing
the returned distance, and the returned probe splits the probe trace so that
every later probe failed the gate and every earlier accepted probe has a
smaller or equal distance — it is the last and the maximum accepted probe. -/
theorem search_returns_max_accepted_probe (shape : List ℕ)
    (probe : ℚ → List ℕ × ℚ) (encT decT : ℕ → ℚ) (target tol : ℚ)
    (cfg : JxlConfig) (r : SearchResult)
    (hd : cfg.DIST_MIN ≤ cfg.DIST_MAX)
    (h : search_distance_for_ssim shape probe encT decT target tol cfg =
      Except.ok (some r)) :
    cfg.DIST_MIN ≤ r.distance ∧ r.distance ≤ cfg.DIST_MAX ∧
      target - tol ≤ r.similarity ∧
      r.encodedBytes = (probe r.distance).1 ∧
      r.similarity = (probe r.distance).2 ∧
      ∃ pre post,
        searchTrace probe (qsub target tol) cfg.STOP_EPS cfg.MAX_ITERS
            cfg.DIST_MIN cfg.DIST_MAX =
          pre ++ (r.distance, r.similarity) :: post ∧
        (∀ q ∈ pre, qsub target tol ≤ q.2 → q.1 ≤ r.distance) ∧
        (∀ q ∈ post, ¬ qsub target tol ≤ q.2) := by
  rw [search_distance_for_ssim] at h
  split at h
  · exact absurd h (by simp)
  · split at h
    · exact absurd h (by simp)
    · have h' := Except.ok.inj h
      have hla := searchGo_last_accepted probe encT decT (qsub target tol)
        cfg.STOP_EPS cfg.MAX_ITERS 0 cfg.DIST_MIN cfg.DIST_MAX none 0 0 r hd
        (by intro b hb; exact absurd hb (by simp)) h'
      rcases hla.2.2.2.2 with ⟨hbe, _⟩ | ⟨hlo, pre, post, htr, hpre, hpost⟩
      · exact absurd hbe (by simp)
      · exact ⟨hlo, hla.2.2.2.1, qsub_eq target tol ▸ hla.1, hla.2.1,
          hla.2.2.1, pre, post, htr, hpre, hpost⟩

/-- Claim C1 witness: the theorem applied to the shared concrete search run
(target 9/10, distance bounds [0, 4], two probes, winner at distance 2). -/
theorem search_returns_max_accepted_probe_witness :
    sdemoCfg.DIST_MIN ≤ sdemoRes.distance ∧
      sdemoRes.distance ≤ sdemoCfg.DIST_MAX ∧
      sdemoTarget - 0 ≤ sdemoRes.similarity ∧
      sdemoRes.encodedBytes = (sdemoProbe sdemoRes.distance).1 ∧
      sdemoRes.similarity = (sdemoProbe sdemoRes.distance).2 ∧
      ∃ pre post,
        searchTrace sdemoProbe (qsub sdemoTarget 0) sdemoCfg.STOP_EPS
            sdemoCfg.MAX_ITERS sdemoCfg.DIST_MIN sdemoCfg.DIST_MAX =
          pre ++ (sdemoRes.distance, sdemoRes.similarity) :: post ∧
        (∀ q ∈ pre, qsub sdemoTarget 0 ≤ q.2 → q.1 ≤ sdemoRes.distance) ∧
        (∀ q ∈ post, ¬ qsub sdemoTarget 0 ≤ q.2) :=
  search_returns_max_accepted_probe [2, 2, 3] sdemoProbe sdemoEncT sdemoDecT
    sdemoTarget 0 sdemoCfg sdemoRes (by decide) rfl

/-- Claim C2 counterexample: with a probe whose decoded SSIM is always 0 and
target 1, no probe ever meets the gate, and search_distance_for_ssim returns
the NORMAL value `Except.ok none` (Python falls off the end of the function and
returns None): it does not fail with a QualityUnattainableError — no such
exception exists anywhere in the code. -/
theorem search_gate_never_met_counterexample :
    search_distance_for_ssim [2, 2, 3] (fun _ => ([], 0)) (fun _ => 0)
      (fun _ => 0) 1 0 sdemoCfg = Except.ok none := by rfl

/-- Claim C2 (amended): if no probe across the whole bisection satisfies the
SSIM gate, search_distance_for_ssim returns no normal tuple: it returns None
(modelled Except.ok none) — the caller's unpacking then raises — rather than
raising a dedicated QualityUnattainableError. -/
theorem search_gate_never_met_returns_none (shape : List ℕ)
    (probe : ℚ → List ℕ × ℚ) (encT decT : ℕ → ℚ) (target tol : ℚ)
    (cfg : JxlConfig) (hs1 : shape.length = 3) (hs2 : shape.getD 2 0 = 3)
    (ht : 0 < target ∧ target ≤ 1) (htol : 0 ≤ tol)
    (hmiss : ∀ dq : ℚ, (probe dq).2 < qsub target tol) :
    search_distance_for_ssim shape probe encT decT target tol cfg =
      Except.ok none := by
  rw [search_distance_for_ssim]
  rw [if_neg (by push_neg; exact ⟨hs1, hs2⟩)]
  rw [if_neg (by push_neg; exact ⟨ht, htol⟩)]
  exact congrArg Except.ok
    (searchGo_none probe encT decT _ _ hmiss cfg.MAX_ITERS 0 _ _ 0 0)

/-- Claim C2 amended witness: the theorem applied to the concrete all-rejected
run of the counterexample. -/
theorem search_gate_never_met_returns_none_witness :
    search_distance_for_ssim [2, 2, 3] (fun _ => ([], (0 : ℚ))) (fun _ => 0)
      (fun _ => 0) 1 0 sdemoCfg = Except.ok none :=
  search_gate_never_met_returns_none [2, 2, 3] (fun _ => ([], 0)) (fun _ => 0)
    (fun _ => 0) 1 0 sdemoCfg rfl rfl (by constructor <;> decide) (by decide)
    (fun _ => by show (0 : ℚ) < qsub 1 0; decide)

/-- Claim C4 (code bug): the timings search_distance_for_ssim returns are the
last executed probe's, not the chosen winning candidate's.  Here the winning
probe is iteration 0 (distance 2, encode 10 ms, decode 20 ms); the second and
last probe (distance 3) fails the gate, yet the returned timings are 99 and 77,
the rejected probe's — contradicting the code's own comments ("timings for
chosen candidate only", jxl_engine.py lines 90, 122-123). -/
theorem search_timings_are_last_probe :
    search_distance_for_ssim [2, 2, 3] sdemoProbe sdemoEncT sdemoDecT
        sdemoTarget 0 sdemoCfg = Except.ok (some sdemoRes) ∧
      searchTrace sdemoProbe (qsub sdemoTarget 0) sdemoCfg.STOP_EPS
          sdemoCfg.MAX_ITERS sdemoCfg.DIST_MIN sdemoCfg.DIST_MAX =
        [(2, 1), (3, 0)] ∧
      sdemoRes.distance = 2 ∧
      sdemoRes.encMs = sdemoEncT 1 ∧ sdemoRes.decMs = sdemoDecT 1 ∧
      sdemoEncT 1 ≠ sdemoEncT 0 ∧ sdemoDecT 1 ≠ sdemoDecT 0 :=
  ⟨rfl, by decide, rfl, by decide, by decide, by decide, by decide⟩

/-- Claim C5: for a fixed input and config with DIST_MIN ≤ DIST_MAX, if the
search succeeds at targets t1 ≤ t2 (same tolerance), the distance chosen at
the stricter target t2 is at most the one chosen at t1. -/
theorem search_distance_antitone_in_target (shape : List ℕ)
    (probe : ℚ → List ℕ × ℚ) (encT1 decT1 encT2 decT2 : ℕ → ℚ)
    (t1 t2 tol : ℚ) (cfg : JxlConfig) (r1 r2 : SearchResult)
    (hd : cfg.DIST_MIN ≤ cfg.DIST_MAX) (ht : t1 ≤ t2)
    (h1 : search_distance_for_ssim shape probe encT1 decT1 t1 tol cfg =
      Except.ok (some r1))
    (h2 : search_distance_for_ssim shape probe encT2 decT2 t2 tol cfg =
      Except.ok (some r2)) :
    r2.distance ≤ r1.distance := by
  rw [search_distance_for_ssim] at h1 h2
  split at h1
  · exact absurd h1 (by simp)
  · rename_i hsh
    split at h1
    · exact absurd h1 (by simp)
    · rw [if_neg hsh] at h2
      split at h2
      · exact absurd h2 (by simp)
      · have e1 := Except.ok.inj h1
        have e2 := Except.ok.inj h2
        have hg : qsub t1 tol ≤ qsub t2 tol := by
          rw [qsub_eq, qsub_eq]; linarith
        obtain ⟨r1', hr1', hle⟩ := searchGo_mono_gate probe encT1 decT1 encT2
          decT2 (qsub t1 tol) (qsub t2 tol) cfg.STOP_EPS hg cfg.MAX_ITERS 0 0
          cfg.DIST_MIN cfg.DIST_MAX none 0 0 0 0 hd (Or.inl rfl) r2 e2
        cases Option.some.inj (e1.symm.trans hr1')
        exact hle

/-- Claim C5 witness: the theorem applied to the shared concrete run at targets
1/2 ≤ 9/10; both runs choose distance 2. -/
theorem search_distance_antitone_in_target_witness :
    sdemoRes.distance ≤ sdemoRes.distance :=
  search_distance_antitone_in_target [2, 2, 3] sdemoProbe sdemoEncT sdemoDecT
    sdemoEncT sdemoDecT (mkRat 1 2) sdemoTarget 0 sdemoCfg sdemoRes sdemoRes
    (by decide) (by decide) rfl rfl

/-! ### Lemmas about the encoding pipeline -/

theorem tile_fname_head (t : Tile) : (tile_fname t).data.head? = some 'x' := rfl

/-- A tile's output filename never collides with a run-control file (those
start with '.' or 'm', a tile file with 'x'). -/
theorem tile_fname_ne (t : Tile) (s : String) (hs : s.data.head? ≠ some 'x') :
    tile_fname t ≠ s :=
  fun h => hs (h ▸ tile_fname_head t)

theorem fsSet_isSome_mono (fs : FS) (p q : String × String) (v : List ℕ)
    (h : (fs q).isSome) : ((fsSet fs p v) q).isSome := by
  rw [fsSet]
  split <;> simp [h]

theorem fsSet_ne (fs : FS) (p q : String × String) (v : List ℕ) (h : q ≠ p) :
    (fsSet fs p v) q = fs q := by
  rw [fsSet, if_neg h]

theorem fsSet_self (fs : FS) (p : String × String) (v : List ℕ) :
    (fsSet fs p v) p = some v := by
  rw [fsSet, if_pos rfl]

theorem workerStep_fs_mono (runId : String)
    (searchFn : Tile → Option SearchResult) (fs : FS) (t : Tile)
    (q : String × String) (h : (fs q).isSome) :
    (((workerStep runId searchFn fs t).1) q).isSome := by
  rw [workerStep]
  split
  · exact h
  · split
    · exact h
    · exact fsSet_isSome_mono fs _ q _ h

theorem workerStep_ne (runId : String)
    (searchFn : Tile → Option SearchResult) (fs : FS) (t : Tile)
    (q : String × String) (h : q ≠ (runId, tile_fname t)) :
    ((workerStep runId searchFn fs t).1) q = fs q := by
  rw [workerStep]
  split
  · rfl
  · split
    · rfl
    · exact fsSet_ne fs _ q _ h

theorem runWorkers_fs_mono (runId : String)
    (searchFn : Tile → Option SearchResult) (tiles : List Tile) :
    ∀ (fs : FS) (q : String × String), (fs q).isSome →
      (((runWorkers runId searchFn fs tiles).1) q).isSome := by
  induction tiles with
  | nil => intro fs q h; exact h
  | cons t ts ih =>
    intro fs q h
    exact ih _ q (workerStep_fs_mono runId searchFn fs t q h)

theorem runWorkers_ne (runId : String)
    (searchFn : Tile → Option SearchResult) (tiles : List Tile) :
    ∀ (fs : FS) (q : String × String), (∀ t ∈ tiles, q ≠ (runId, tile_fname t)) →
      ((runWorkers runId searchFn fs tiles).1) q = fs q := by
  induction tiles with
  | nil => intro fs q _; rfl
  | cons t ts ih =>
    intro fs q h
    rw [show (runWorkers runId searchFn fs (t :: ts)).1 =
      (runWorkers runId searchFn ((workerStep runId searchFn fs t).1) ts).1
      from rfl]
    rw [ih _ q (fun u hu => h u (List.mem_cons_of_mem _ hu))]
    exact workerStep_ne runId searchFn fs t q (h t (List.mem_cons_self _ _))

theorem runWorkers_tile_exists (runId : String)
    (searchFn : Tile → Option SearchResult) (tiles : List Tile)
    (hok : ∀ t ∈ tiles, (searchFn t).isSome) :
    ∀ (fs : FS) (t : Tile), t ∈ tiles →
      (((runWorkers runId searchFn fs tiles).1) (runId, tile_fname t)).isSome := by
  induction tiles with
  | nil => intro fs t ht; simp at ht
  | cons u us ih =>
    intro fs t ht
    have hstep : (((workerStep runId searchFn fs u).1)
        (runId, tile_fname u)).isSome := by
      rw [workerStep]
      split
      · rename_i hex; exact hex
      · split
        · rename_i hnone
          have := hok u (List.mem_cons_self _ _)
          rw [hnone] at this
          simp at this
        · simp [fsSet_self]
    rcases List.mem_cons.mp ht with rfl | ht'
    · exact runWorkers_fs_mono runId searchFn us _ _ hstep
    · exact ih (fun v hv => hok v (List.mem_cons_of_mem _ hv)) _ t ht'

/-- When every tile's output file already exists, the worker fold touches
nothing: the file system is unchanged, every status is "skipped", and no row is
produced.  This holds for every searchFn — the slide reader and codec are never
consulted. -/
theorem runWorkers_all_skipped (runId : String)
    (searchFn : Tile → Option SearchResult) (tiles : List Tile) :
    ∀ fs : FS, (∀ t ∈ tiles, (fs (runId, tile_fname t)).isSome) →
      runWorkers runId searchFn fs tiles =
        (fs, tiles.map (fun _ => "skipped"), []) := by
  induction tiles with
  | nil => intro fs _; rfl
  | cons t ts ih =>
    intro fs h
    have hstep : workerStep runId searchFn fs t = (fs, "skipped", none) := by
      rw [workerStep, if_pos (h t (List.mem_cons_self _ _))]
    simp only [runWorkers, hstep,
      ih fs (fun u hu => h u (List.mem_cons_of_mem _ hu)), List.map_cons]

/-- A pipeline invocation over a file system that already holds every tile's
output: all tiles skipped, no manifest row, and the only paths that change are
the two lifecycle-marker paths. -/
theorem run_over_complete_fs (runId : String)
    (searchFn : Tile → Option SearchResult) (tiles : List Tile) (fs : FS)
    (hex : ∀ t ∈ tiles, (fs (runId, tile_fname t)).isSome) :
    (jxl_encode_and_store runId searchFn tiles fs).statuses =
        tiles.map (fun _ => "skipped") ∧
      (jxl_encode_and_store runId searchFn tiles fs).rows = [] ∧
      ∀ p : String × String,
        (jxl_encode_and_store runId searchFn tiles fs).fs p =
          if p = (runId, ".DONE") then some encodingMarker
          else if p = (runId, ".INPROGRESS") then none
          else fs p := by
  have hex1 : ∀ t ∈ tiles,
      ((fsSet fs (runId, ".INPROGRESS") encodingMarker)
        (runId, tile_fname t)).isSome :=
    fun t ht => fsSet_isSome_mono fs _ _ _ (hex t ht)
  have hrun := runWorkers_all_skipped runId searchFn tiles _ hex1
  refine ⟨?_, ?_, ?_⟩
  · rw [jxl_encode_and_store]
    simp only [hrun]
  · rw [jxl_encode_and_store]
    simp only [hrun]
  · intro p
    rw [jxl_encode_and_store]
    simp only [hrun]
    rw [show writeManifest runId []
        (fsSet fs (runId, ".INPROGRESS") encodingMarker) =
        fsSet fs (runId, ".INPROGRESS") encodingMarker from by
      rw [writeManifest]; rfl]
    rw [finalizeMarker, fsSet_self]
    dsimp only
    by_cases hd : p = (runId, ".DONE")
    · subst hd
      simp [fsSet_self]
    · rw [fsSet_ne _ _ _ _ hd, if_neg hd]
      by_cases hm : p = (runId, ".INPROGRESS")
      · subst hm
        simp [fsRemove]
      · simp [fsRemove, hm, fsSet_ne _ _ _ _ hm]

theorem writeManifest_ne (runId : String) (rows : List EncRow) (fs : FS)
    (q : String × String) (h : q ≠ (runId, "manifest.csv")) :
    writeManifest runId rows fs q = fs q := by
  rw [writeManifest]
  split
  · rfl
  · exact fsSet_ne fs _ q _ h

/-- After a run in which every tile was written or skipped (searchFn total),
every tile's output file exists, .DONE holds the marker content, and
.INPROGRESS is gone. -/
theorem run_post (runId : String) (searchFn : Tile → Option SearchResult)
    (tiles : List Tile) (fs0 : FS)
    (hok : ∀ t ∈ tiles, (searchFn t).isSome) :
    (∀ t ∈ tiles, ((jxl_encode_and_store runId searchFn tiles fs0).fs
        (runId, tile_fname t)).isSome) ∧
      (jxl_encode_and_store runId searchFn tiles fs0).fs (runId, ".DONE") =
        some encodingMarker ∧
      (jxl_encode_and_store runId searchFn tiles fs0).fs
        (runId, ".INPROGRESS") = none := by
  have hmark_ne : ∀ t : Tile,
      ((runId, ".INPROGRESS") : String × String) ≠ (runId, tile_fname t) :=
    fun t h => tile_fname_ne t ".INPROGRESS" (by decide)
      (congrArg Prod.snd h).symm
  have hman_mark :
      ((runId, ".INPROGRESS") : String × String) ≠ (runId, "manifest.csv") :=
    fun h => absurd
      (show (".INPROGRESS" : String) = "manifest.csv" from congrArg Prod.snd h)
      (by decide)
  have hWt := runWorkers_tile_exists runId searchFn tiles hok
    (fsSet fs0 (runId, ".INPROGRESS") encodingMarker)
  have hWm : (runWorkers runId searchFn
      (fsSet fs0 (runId, ".INPROGRESS") encodingMarker) tiles).1
        (runId, ".INPROGRESS") = some encodingMarker := by
    rw [runWorkers_ne runId searchFn tiles _ _ (fun t _ => hmark_ne t),
      fsSet_self]
  have hMm : writeManifest runId
      (runWorkers runId searchFn
        (fsSet fs0 (runId, ".INPROGRESS") encodingMarker) tiles).2.2
      (runWorkers runId searchFn
        (fsSet fs0 (runId, ".INPROGRESS") encodingMarker) tiles).1
      (runId, ".INPROGRESS") = some encodingMarker := by
    rw [writeManifest_ne _ _ _ _ hman_mark, hWm]
  have hfin : finalizeMarker runId (writeManifest runId
      (runWorkers runId searchFn
        (fsSet fs0 (runId, ".INPROGRESS") encodingMarker) tiles).2.2
      (runWorkers runId searchFn
        (fsSet fs0 (runId, ".INPROGRESS") encodingMarker) tiles).1) =
      fsSet (fsRemove (writeManifest runId
        (runWorkers runId searchFn
          (fsSet fs0 (runId, ".INPROGRESS") encodingMarker) tiles).2.2
        (runWorkers runId searchFn
          (fsSet fs0 (runId, ".INPROGRESS") encodingMarker) tiles).1)
        (runId, ".INPROGRESS")) (runId, ".DONE") encodingMarker := by
    rw [finalizeMarker, hMm]
  refine ⟨?_, ?_, ?_⟩
  · intro t ht
    rw [jxl_encode_and_store]
    simp only [hfin]
    have h1 : ((runId, tile_fname t) : String × String) ≠ (runId, ".DONE") :=
      fun h => tile_fname_ne t ".DONE" (by decide) (congrArg Prod.snd h)
    have h2 : ((runId, tile_fname t) : String × String) ≠
        (runId, ".INPROGRESS") :=
      fun h => tile_fname_ne t ".INPROGRESS" (by decide) (congrArg Prod.snd h)
    have h3 : ((runId, tile_fname t) : String × String) ≠
        (runId, "manifest.csv") :=
      fun h => tile_fname_ne t "manifest.csv" (by decide) (congrArg Prod.snd h)
    rw [fsSet_ne _ _ _ _ h1, fsRemove, if_neg h2,
      writeManifest_ne _ _ _ _ h3]
    exact hWt t ht
  · rw [jxl_encode_and_store]
    simp only [hfin]
    rw [fsSet_self]
  · rw [jxl_encode_and_store]
    simp only [hfin]
    rw [fsSet_ne _ _ _ _ (fun h => absurd
        (show (".INPROGRESS" : String) = ".DONE" from congrArg Prod.snd h)
        (by decide)),
      fsRemove, if_pos rfl]

/-! ### C3: idempotence of the pipeline -/

def c3tile : Tile := ⟨0, 0, 0, 1, 1, 1⟩

def c3searchFn : Tile → Option SearchResult := fun _ => some ⟨1, [1], 1, 0, 0⟩

def c3fs0 : FS := fun _ => none

/-- Claim C3 counterexample: jxl_encode_and_store derives the run directory
from the invocation timestamp, so a second invocation on the same tile set and
the same output root gets a fresh run directory (here "20250101T000001" after
"20250101T000000"): its tile is encoded again and reported "written", not
"skipped". -/
theorem second_run_fresh_dir_counterexample :
    (jxl_encode_and_store "20250101T000001" c3searchFn [c3tile]
        (jxl_encode_and_store "20250101T000000" c3searchFn [c3tile]
          c3fs0).fs).statuses = ["written"] ∧
      ("written" : String) ≠ "skipped" :=
  ⟨rfl, by decide⟩

/-- Claim C3 (amended): a second pipeline invocation over the SAME run
directory (same timestamp) is a no-op pass: every tile is reported "skipped"
with the Region Source and Codec untouched (the second run's searchFn is
arbitrary and never consulted), no manifest row is produced, and every file,
the lifecycle markers included, is byte-for-byte as the first run left it. -/
theorem second_run_same_dir_skips_all (runId : String)
    (searchFn1 searchFn2 : Tile → Option SearchResult) (tiles : List Tile)
    (fs0 : FS) (hok : ∀ t ∈ tiles, (searchFn1 t).isSome) :
    (jxl_encode_and_store runId searchFn2 tiles
        (jxl_encode_and_store runId searchFn1 tiles fs0).fs).statuses =
      tiles.map (fun _ => "skipped") ∧
      (jxl_encode_and_store runId searchFn2 tiles
        (jxl_encode_and_store runId searchFn1 tiles fs0).fs).rows = [] ∧
      ∀ p, (jxl_encode_and_store runId searchFn2 tiles
          (jxl_encode_and_store runId searchFn1 tiles fs0).fs).fs p =
        (jxl_encode_and_store runId searchFn1 tiles fs0).fs p := by
  obtain ⟨htile, hdone, hmark⟩ := run_post runId searchFn1 tiles fs0 hok
  obtain ⟨h1, h2, h3⟩ := run_over_complete_fs runId searchFn2 tiles _ htile
  refine ⟨h1, h2, fun p => ?_⟩
  rw [h3 p]
  by_cases hd : p = (runId, ".DONE")
  · subst hd
    rw [if_pos rfl, hdone]
  · rw [if_neg hd]
    by_cases hm : p = (runId, ".INPROGRESS")
    · subst hm
      rw [if_pos rfl, hmark]
    · rw [if_neg hm]

/-- Claim C3 amended witness: two invocations with the same run directory; the
statuses part of the conclusion at the concrete instance. -/
theorem second_run_same_dir_skips_all_witness :
    (jxl_encode_and_store "20250101T000000" c3searchFn [c3tile]
        (jxl_encode_and_store "20250101T000000" c3searchFn [c3tile]
          c3fs0).fs).statuses = [c3tile].map (fun _ => "skipped") :=
  (second_run_same_dir_skips_all "20250101T000000" c3searchFn c3searchFn
    [c3tile] c3fs0 (by decide)).1

/-! ### C8: tissue-mask invariants -/

/-- The level-0 mapping of a padded, clamped mask-pixel interval stays ordered
and inside [0, W0], provided the downsample is positive and maps the last mask
pixel index wz = w−1 inside the slide. -/
theorem bbox_arith (W0 : ℕ) (down : ℚ) (hd : 0 < down) (wz x0m x1m exp : ℤ)
    (hw : ((wz : ℤ) : ℚ) * down ≤ W0) (h0 : 0 ≤ x0m) (h01 : x0m ≤ x1m)
    (h1 : x1m ≤ wz) (hexp : 1 ≤ exp) :
    0 ≤ max 0 (qfloor (qmul ((max 0 (x0m - exp) : ℤ) : ℚ) down)) ∧
      max 0 (qfloor (qmul ((max 0 (x0m - exp) : ℤ) : ℚ) down)) ≤
        min (W0 : ℤ) (qceil (qmul ((min wz (x1m + exp) + 1 : ℤ) : ℚ) down)) ∧
      min (W0 : ℤ) (qceil (qmul ((min wz (x1m + exp) + 1 : ℤ) : ℚ) down)) ≤
        W0 := by
  have hpx0b : max 0 (x0m - exp) ≤ wz := by omega
  have hpx1a : (0 : ℤ) ≤ min wz (x1m + exp) := by omega
  have hle : max 0 (x0m - exp) ≤ min wz (x1m + exp) + 1 := by omega
  have hFC : qfloor (qmul ((max 0 (x0m - exp) : ℤ) : ℚ) down) ≤
      qceil (qmul ((min wz (x1m + exp) + 1 : ℤ) : ℚ) down) := by
    rw [qfloor_eq, qceil_eq, qmul_eq, qmul_eq]
    refine (Int.floor_mono ?_).trans (Int.floor_le_ceil _)
    exact mul_le_mul_of_nonneg_right (by exact_mod_cast hle) hd.le
  have hFW : qfloor (qmul ((max 0 (x0m - exp) : ℤ) : ℚ) down) ≤ (W0 : ℤ) := by
    rw [qfloor_eq, qmul_eq]
    have hq : ((max 0 (x0m - exp) : ℤ) : ℚ) * down ≤ ((W0 : ℕ) : ℚ) :=
      le_trans (mul_le_mul_of_nonneg_right (by exact_mod_cast hpx0b) hd.le) hw
    exact_mod_cast (Int.floor_mono hq).trans_eq (Int.floor_natCast W0)
  have hC0 : (0 : ℤ) ≤ qceil (qmul ((min wz (x1m + exp) + 1 : ℤ) : ℚ) down) := by
    rw [qceil_eq, qmul_eq]
    refine Int.ceil_nonneg (mul_nonneg ?_ hd.le)
    exact_mod_cast le_trans (by omega : (0 : ℤ) ≤ min wz (x1m + exp) + 1)
      (le_refl _)
  omega

/-- Claim C8: every Mask make_tissue_mask returns has coverage in [0,1] and a
bounding box (x0,y0,x1,y1) with 0 ≤ x0 ≤ x1 ≤ W0 and 0 ≤ y0 ≤ y1 ≤ H0; if no
tissue cell survives, the box is (0,0,0,0) and the coverage 0.  The hypotheses
are the Region Source consistency conditions: the downsample is positive and
maps the last mask pixel inside the slide ((w−1)·down ≤ W0, (h−1)·down ≤ H0). -/
theorem mask_invariants (W0 H0 w h : ℕ) (grid : ℕ → ℕ → Bool)
    (down dilate : ℚ) (hd : 0 < down)
    (hw : ((w : ℚ) - 1) * down ≤ W0) (hh : ((h : ℚ) - 1) * down ≤ H0) :
    0 ≤ (make_tissue_mask W0 H0 w h grid down dilate).coverage ∧
      (make_tissue_mask W0 H0 w h grid down dilate).coverage ≤ 1 ∧
      0 ≤ (make_tissue_mask W0 H0 w h grid down dilate).bbox_level0.1 ∧
      (make_tissue_mask W0 H0 w h grid down dilate).bbox_level0.1 ≤
        (make_tissue_mask W0 H0 w h grid down dilate).bbox_level0.2.2.1 ∧
      (make_tissue_mask W0 H0 w h grid down dilate).bbox_level0.2.2.1 ≤ W0 ∧
      0 ≤ (make_tissue_mask W0 H0 w h grid down dilate).bbox_level0.2.1 ∧
      (make_tissue_mask W0 H0 w h grid down dilate).bbox_level0.2.1 ≤
        (make_tissue_mask W0 H0 w h grid down dilate).bbox_level0.2.2.2 ∧
      (make_tissue_mask W0 H0 w h grid down dilate).bbox_level0.2.2.2 ≤ H0 ∧
      (tissueCells grid h w = ∅ →
        (make_tissue_mask W0 H0 w h grid down dilate).bbox_level0 =
          (0, 0, 0, 0) ∧
        (make_tissue_mask W0 H0 w h grid down dilate).coverage = 0) := by
  simp only [make_tissue_mask]
  split
  · rename_i hne
    dsimp only
    have hcol : ∀ v ∈ (tissueCells grid h w).image Prod.snd, v < w := by
      intro v hv
      obtain ⟨a, ha, rfl⟩ := Finset.mem_image.mp hv
      exact Finset.mem_range.mp
        (Finset.mem_product.mp (Finset.mem_filter.mp ha).1).2
    have hrow : ∀ v ∈ (tissueCells grid h w).image Prod.fst, v < h := by
      intro v hv
      obtain ⟨a, ha, rfl⟩ := Finset.mem_image.mp hv
      exact Finset.mem_range.mp
        (Finset.mem_product.mp (Finset.mem_filter.mp ha).1).1
    have hwpos : 0 < w :=
      lt_of_le_of_lt (Nat.zero_le _)
        (hcol _ (Finset.min'_mem _ (hne.image _)))
    have hhpos : 0 < h :=
      lt_of_le_of_lt (Nat.zero_le _)
        (hrow _ (Finset.min'_mem _ (hne.image _)))
    have hwq : ((((w : ℤ) - 1 : ℤ)) : ℚ) * down ≤ W0 := by
      push_cast
      exact hw
    have hhq : ((((h : ℤ) - 1 : ℤ)) : ℚ) * down ≤ H0 := by
      push_cast
      exact hh
    have hx01 : ((((tissueCells grid h w).image Prod.snd).min'
        (hne.image _) : ℕ) : ℤ) ≤
        ((((tissueCells grid h w).image Prod.snd).max' (hne.image _) : ℕ) : ℤ) := by
      exact_mod_cast Finset.min'_le _ _ (Finset.max'_mem _ (hne.image _))
    have hx1w : ((((tissueCells grid h w).image Prod.snd).max'
        (hne.image _) : ℕ) : ℤ) ≤ (w : ℤ) - 1 := by
      have := hcol _ (Finset.max'_mem _ (hne.image _))
      omega
    have hy01 : ((((tissueCells grid h w).image Prod.fst).min'
        (hne.image _) : ℕ) : ℤ) ≤
        ((((tissueCells grid h w).image Prod.fst).max' (hne.image _) : ℕ) : ℤ) := by
      exact_mod_cast Finset.min'_le _ _ (Finset.max'_mem _ (hne.image _))
    have hy1h : ((((tissueCells grid h w).image Prod.fst).max'
        (hne.image _) : ℕ) : ℤ) ≤ (h : ℤ) - 1 := by
      have := hrow _ (Finset.max'_mem _ (hne.image _))
      omega
    have hexp : (1 : ℤ) ≤ max 1 (qceil (qdiv dilate down)) := le_max_left _ _
    obtain ⟨px1, px2, px3⟩ := bbox_arith W0 down hd ((w : ℤ) - 1) _ _
      (max 1 (qceil (qdiv dilate down))) hwq (Int.ofNat_nonneg _) hx01 hx1w
      hexp
    obtain ⟨py1, py2, py3⟩ := bbox_arith H0 down hd ((h : ℤ) - 1) _ _
      (max 1 (qceil (qdiv dilate down))) hhq (Int.ofNat_nonneg _) hy01 hy1h
      hexp
    have hcard : ((tissueCells grid h w).card : ℚ) ≤ ((h * w : ℕ) : ℚ) := by
      have h1 : (tissueCells grid h w).card ≤ h * w := by
        refine le_trans (Finset.card_filter_le _ _) ?_
        rw [Finset.card_product, Finset.card_range, Finset.card_range]
      exact_mod_cast h1
    have hhw : (0 : ℚ) < ((h * w : ℕ) : ℚ) := by
      exact_mod_cast Nat.mul_pos hhpos hwpos
    refine ⟨?_, ?_, px1, px2, px3, py1, py2, py3, fun hemp =>
      absurd hemp (Finset.nonempty_iff_ne_empty.mp hne)⟩
    · rw [qdiv_eq]
      exact div_nonneg (Nat.cast_nonneg _) (Nat.cast_nonneg _)
    · rw [qdiv_eq]
      exact (div_le_one hhw).mpr hcard
  · rename_i hne
    dsimp only
    refine ⟨le_refl _, by norm_num, le_refl _, le_refl _, Int.ofNat_nonneg W0,
      le_refl _, le_refl _, Int.ofNat_nonneg H0, fun _ => ⟨rfl, rfl⟩⟩

/-- Claim C8 witness: the theorem applied to a 2×2 all-background grid on a
4×4 slide at downsample 1; the tissue-free path returns the empty bounding box
and zero coverage. -/
theorem mask_invariants_witness :
    0 ≤ (make_tissue_mask 4 4 2 2 (fun _ _ => false) 1 1).coverage ∧
      (make_tissue_mask 4 4 2 2 (fun _ _ => false) 1 1).coverage ≤ 1 ∧
      0 ≤ (make_tissue_mask 4 4 2 2 (fun _ _ => false) 1 1).bbox_level0.1 ∧
      (make_tissue_mask 4 4 2 2 (fun _ _ => false) 1 1).bbox_level0.1 ≤
        (make_tissue_mask 4 4 2 2 (fun _ _ => false) 1 1).bbox_level0.2.2.1 ∧
      (make_tissue_mask 4 4 2 2 (fun _ _ => false) 1 1).bbox_level0.2.2.1 ≤
        4 ∧
      0 ≤ (make_tissue_mask 4 4 2 2 (fun _ _ => false) 1 1).bbox_level0.2.1 ∧
      (make_tissue_mask 4 4 2 2 (fun _ _ => false) 1 1).bbox_level0.2.1 ≤
        (make_tissue_mask 4 4 2 2 (fun _ _ => false) 1 1).bbox_level0.2.2.2 ∧
      (make_tissue_mask 4 4 2 2 (fun _ _ => false) 1 1).bbox_level0.2.2.2 ≤
        4 ∧
      (tissueCells (fun _ _ => false) 2 2 = ∅ →
        (make_tissue_mask 4 4 2 2 (fun _ _ => false) 1 1).bbox_level0 =
          (0, 0, 0, 0) ∧
        (make_tissue_mask 4 4 2 2 (fun _ _ => false) 1 1).coverage = 0) :=
  mask_invariants 4 4 2 2 (fun _ _ => false) 1 1 (by norm_num) (by norm_num)
    (by norm_num)
